import Mathlib

/-!
Verification development for the `Analyze_Specified_Directory` repository.

The development shallowly embeds the two components of `main.cpp`:

* the traversal driver `listFilesWithThreads` (main.cpp lines 238-269),
  together with the global statistics counters (lines 29-30), the benchmark
  loop of `main` (lines 309-319) and the `summary` report (lines 273-289);
* the `threadPool` task-queue component (lines 32-199), modelled as a
  labelled transition system over an explicit pool state, with the
  termination-detection counter `tasks_total`, the FIFO queue `tasks`,
  `push_task`, the worker loop, `wait_for_tasks` and `reset`.

Machine integers of the source (`unsigned int`, `int`,
`std::uint_fast32_t`) are modelled as `Nat`: every counter in the program
only ever holds small nonnegative values (bounded by the number of
filesystem entries respectively outstanding tasks), so unsigned wrap-around
is unreachable; where an unsigned subtraction occurs
(`get_tasks_running`) the pool invariant proved below shows the
subtrahend never exceeds the minuend, so `Nat` truncated subtraction and
the C++ unsigned subtraction agree on all reachable states.
-/

set_option linter.unusedVariables false

/-- Statistics counters, embedding the global variables of main.cpp
lines 29-30: `howManyDirectories`, `howManyFiles`, `howManyWords`,
`howManyLetters` (unsigned int) and `isEmptyLine`, `nonEmptyLine`
(int; only ever incremented from 0 in this program, hence `Nat`). -/
structure Counters where
  howManyDirectories : Nat
  howManyFiles : Nat
  howManyWords : Nat
  howManyLetters : Nat
  isEmptyLine : Nat
  nonEmptyLine : Nat
deriving Repr, DecidableEq

/-- Pointwise sum of counter records: concurrent increments of the
globals commute when each increment is performed atomically (the
race-free reading; the racy reading is modelled separately by
`IncMachine` below). -/
instance : Add Counters :=
  ⟨fun a b =>
    ⟨a.howManyDirectories + b.howManyDirectories,
     a.howManyFiles + b.howManyFiles,
     a.howManyWords + b.howManyWords,
     a.howManyLetters + b.howManyLetters,
     a.isEmptyLine + b.isEmptyLine,
     a.nonEmptyLine + b.nonEmptyLine⟩⟩

/-- All-zero counters: the state of the globals at program start. -/
def Counters.zero : Counters := ⟨0, 0, 0, 0, 0, 0⟩

/-- Model of a filesystem entry as seen through `std::filesystem`.
A `file` is a regular file (its `lines` are the contents, split at
newlines); a `dir` is a directory entry with `denied = true` when
constructing a `directory_iterator` for it throws
`filesystem_error` (permission denied).  Entry kinds other than
regular files and directories are not modelled; `is_empty` metadata
is taken to be readable even for a denied directory. -/
inductive FSEntry : Type where
  | file (name : String) (lines : List String) : FSEntry
  | dir (name : String) (denied : Bool) (entries : List FSEntry) : FSEntry

mutual

/-- Size of a filesystem entry: the number of entries in the subtree
rooted at it (used as the termination measure of the traversal). -/
def sizeFS : FSEntry → Nat
  | .file _ _ => 1
  | .dir _ _ es => 1 + sizeFSList es

/-- Total size of a list of filesystem entries. -/
def sizeFSList : List FSEntry → Nat
  | [] => 0
  | e :: es => sizeFS e + sizeFSList es

end

/-- Number of space characters in a string: embeds the loop of
main.cpp lines 261-265 (`if (fileName[i] == ' ') howManyWords++`). -/
def countSpaces (s : String) : Nat :=
  s.data.foldl (fun n c => if c = ' ' then n + 1 else n) 0

/-- One iteration of the `for (auto& dirEntry : directory_iterator(path))`
loop body of `listFilesWithThreads` (main.cpp lines 240-268).  Returns the
counter increments performed for this entry and the list of tasks pushed
(`pool.push_task(listFilesWithThreads, path + "/" + DirectoryName)`).
A directory entry increments `howManyDirectories`; an empty directory
additionally increments `isEmptyLine` and then falls through (no
`continue`) to the file branch; a non-empty directory increments
`nonEmptyLine`, pushes a task for itself and `continue`s.  The file
branch increments `howManyFiles`, adds the length of the entry name to
`howManyLetters`, and increments `howManyWords` once plus once per space
character of the name.  File contents are never inspected. -/
def visitEntry : FSEntry → Counters × List FSEntry
  | .dir name denied es =>
    if es.isEmpty then
      (⟨1, 1, 1 + countSpaces name, name.length, 1, 0⟩, [])
    else
      (⟨1, 0, 0, 0, 0, 1⟩, [.dir name denied es])
  | .file name _ => (⟨0, 1, 1 + countSpaces name, name.length, 0, 0⟩, [])

/-- The whole loop of `listFilesWithThreads` over the entries returned by
the directory iterator, accumulating counter increments and pushed tasks
in iteration order. -/
def visitEntries : List FSEntry → Counters × List FSEntry
  | [] => (Counters.zero, [])
  | e :: es =>
    ((visitEntry e).1 + (visitEntries es).1, (visitEntry e).2 ++ (visitEntries es).2)

/-- Running one pool task `listFilesWithThreads(path)` on the directory
denoted by `path`.  `std::filesystem::directory_iterator(path)` throws
`filesystem_error` when the path is access-denied or is not a directory;
`listFilesWithThreads` contains no try/catch, so the task ends
exceptionally (`Except.error`) in those cases. -/
def runTask : FSEntry → Except Unit (Counters × List FSEntry)
  | .dir _ false es => .ok (visitEntries es)
  | .dir _ true _ => .error ()
  | .file _ _ => .error ()

theorem sizeFS_pos (e : FSEntry) : 0 < sizeFS e := by
  cases e <;> simp [sizeFS]

theorem sizeFSList_append (a b : List FSEntry) :
    sizeFSList (a ++ b) = sizeFSList a + sizeFSList b := by
  induction a with
  | nil => simp [sizeFSList]
  | cons e es ih => simp [sizeFSList, ih]; omega

theorem sizeFSList_visitEntry (e : FSEntry) :
    sizeFSList (visitEntry e).2 ≤ sizeFS e := by
  cases e with
  | file name lines => simp [visitEntry, sizeFSList]
  | dir name denied es =>
    by_cases h : es.isEmpty <;> simp [visitEntry, h, sizeFSList]

theorem sizeFSList_visitEntries (es : List FSEntry) :
    sizeFSList (visitEntries es).2 ≤ sizeFSList es := by
  induction es with
  | nil => simp [visitEntries, sizeFSList]
  | cons e es ih =>
    simp only [visitEntries, sizeFSList, sizeFSList_append]
    have := sizeFSList_visitEntry e
    omega

/-- FIFO drain of the task queue: repeatedly pop the front task, run it,
append the tasks it pushed at the back of the queue and accumulate its
counter increments; if a task throws, the exception escapes the worker
(`threadPool::worker` has no handler around `task()`), which aborts the
run.  This is the single-worker schedule; under atomic counter updates
any schedule yields the same totals because `Counters` addition is
commutative. -/
def runAll (c : Counters) (q : List FSEntry) : Except Unit Counters :=
  match q with
  | [] => .ok c
  | t :: rest =>
    match h : runTask t with
    | .error e => .error e
    | .ok r => runAll (c + r.1) (rest ++ r.2)
termination_by sizeFSList q
decreasing_by
  cases e with
  | file name lines => simp [runTask] at h
  | dir name denied entries =>
    cases denied with
    | true => simp [runTask] at h
    | false =>
      simp [runTask] at h
      subst h
      simp only [sizeFSList, sizeFS, sizeFSList_append]
      have := sizeFSList_visitEntries entries
      omega

/-- Full traversal as `main` performs it: push the single root task
`listFilesWithThreads(path)` and drain the pool. -/
def runTraversal (root : FSEntry) : Except Unit Counters :=
  runAll Counters.zero [root]

/-- Unfolding lemma for counter addition, used to evaluate traversals on
concrete trees. -/
theorem Counters.add_def (a b : Counters) :
    a + b = ⟨a.howManyDirectories + b.howManyDirectories,
      a.howManyFiles + b.howManyFiles, a.howManyWords + b.howManyWords,
      a.howManyLetters + b.howManyLetters, a.isEmptyLine + b.isEmptyLine,
      a.nonEmptyLine + b.nonEmptyLine⟩ := rfl

namespace threadPool

/-- A pool task abstracted to its observable interaction with the pool:
the tasks it pushes while it runs (`listFilesWithThreads` pushes one
task per non-empty subdirectory it discovers).  The children of a node
are the arguments of the `push_task` calls the task issues, in order. -/
inductive Task : Type where
  | mk (children : List Task) : Task

/-- The `push_task` calls issued by a task while it runs. -/
def Task.children : Task → List Task
  | .mk cs => cs

mutual

/-- Number of tasks in the transitive submission tree of a task
(the task itself plus everything it transitively pushes). -/
def sizeT : Task → Nat
  | .mk cs => 1 + sizeTList cs

/-- Total transitive size of a list of tasks. -/
def sizeTList : List Task → Nat
  | [] => 0
  | t :: ts => sizeT t + sizeTList ts

end

theorem sizeT_def (t : Task) : sizeT t = 1 + sizeTList t.children := by
  cases t; rfl

theorem sizeTList_append (a b : List Task) :
    sizeTList (a ++ b) = sizeTList a + sizeTList b := by
  induction a with
  | nil => simp [sizeTList]
  | cons t ts ih => simp [sizeTList, ih]; omega

/-- State of the `threadPool` object (main.cpp lines 193-198) together
with the observable progress of its workers and two history variables.
`paused`, `running`, `tasks` (the FIFO queue), `thread_count` and
`tasks_total` are the data members of the class.  `inFlight` records,
for each task currently dequeued by some worker and not yet finished,
the `push_task` calls it has not yet issued.  `submitted` and
`completed` are history counters (number of `push_task` calls ever made
and number of `tasks_total--` decrements ever performed); they exist
only in the model, not in the C++ state. -/
structure PoolState where
  paused : Bool
  running : Bool
  tasks : List Task
  thread_count : Nat
  tasks_total : Nat
  inFlight : List (List Task)
  submitted : Nat
  completed : Nat

/-- `get_tasks_queued` (main.cpp 58-62): the queue length. -/
def get_tasks_queued (s : PoolState) : Nat := s.tasks.length

/-- `get_tasks_running` (main.cpp 64-67): `tasks_total` minus the queue
length.  The C++ subtraction is on unsigned integers; the pool invariant
`PoolInv` below shows `tasks_total` never drops below the queue length
on reachable states, so the truncated `Nat` subtraction agrees with it
wherever the program evaluates the expression. -/
def get_tasks_running (s : PoolState) : Nat :=
  s.tasks_total - get_tasks_queued s

/-- `get_tasks_total` (main.cpp 69-72). -/
def get_tasks_total (s : PoolState) : Nat := s.tasks_total

/-- State of a freshly constructed pool (main.cpp 42-46): `n` worker
threads, empty queue, `tasks_total = 0`, unpaused, running. -/
def initState (n : Nat) : PoolState :=
  ⟨false, true, [], n, 0, [], 0, 0⟩

/-- Total number of pending `push_task` calls of the in-flight tasks. -/
def sumLengths (l : List (List Task)) : Nat := (l.map List.length).sum

/-- Completion of every in-flight task: each dequeued task issues its
remaining `push_task` calls (each increments `tasks_total` and appends
to the queue) and then its worker performs `tasks_total--`.  This is
what the workers do while `wait_for_tasks` blocks inside `reset` with
`paused = true`: no new task is dequeued, the dequeued ones run to
completion. -/
def drainInFlight (s : PoolState) : PoolState :=
  { s with tasks := s.tasks ++ s.inFlight.flatten,
           tasks_total := s.tasks_total + sumLengths s.inFlight - s.inFlight.length,
           submitted := s.submitted + sumLengths s.inFlight,
           completed := s.completed + s.inFlight.length,
           inFlight := [] }

/-- `threadPool::reset` (main.cpp 91-103): save `paused`, set
`paused = true`, `wait_for_tasks()` (the in-flight tasks complete, the
queue keeps everything not yet dequeued), `running = false`, join all
existing workers, set `thread_count` to the argument (or to the hardware
concurrency `hw` when the argument is zero), spawn that many fresh
workers, restore `paused`, set `running = true`. -/
def reset (s : PoolState) (k hw : Nat) : PoolState :=
  { drainInFlight { s with paused := true } with
      thread_count := if k = 0 then hw else k,
      paused := s.paused,
      running := true }

/-- Exit condition of the polling loop of `wait_for_tasks` (main.cpp
105-121): the loop breaks, and the call returns, exactly when
`tasks_total == 0` while unpaused, or `get_tasks_running() == 0` while
paused; otherwise it sleeps and polls again. -/
def waitExit (s : PoolState) : Bool :=
  if s.paused then get_tasks_running s == 0 else get_tasks_total s == 0

/-- Atomic transitions of the pool, interleaving the driver thread and
the workers.

* `push`: `push_task` (main.cpp 74-82), callable from any thread at any
  time: `tasks_total++` happens before the task is enqueued, and the two
  together are one transition because a concurrent reader can only
  observe the counter already incremented by the time the task is
  visible in the queue.
* `pop`: a worker (main.cpp 172-187) dequeues the front task, only while
  `running` and not `paused`.
* `spawn`: a task currently being run by a worker issues its next
  `push_task` call.
* `finish`: a worker whose task has returned (all of its `push_task`
  calls issued) performs `tasks_total--`.
* `pause` / `resume`: writes to the public atomic `paused` flag.
* `reset_call`: the driver runs `reset` (the in-flight drain inside it
  is folded into one transition). -/
inductive Step : PoolState → PoolState → Prop where
  | push (s : PoolState) (t : Task) :
      Step s { s with tasks := s.tasks ++ [t],
                      tasks_total := s.tasks_total + 1,
                      submitted := s.submitted + 1 }
  | pop (s : PoolState) (t : Task) (rest : List Task)
      (hrun : s.running = true) (hpause : s.paused = false)
      (hq : s.tasks = t :: rest) :
      Step s { s with tasks := rest,
                      inFlight := s.inFlight ++ [t.children] }
  | spawn (s : PoolState) (i : Nat) (c : Task) (cs : List Task)
      (h : s.inFlight[i]? = some (c :: cs)) :
      Step s { s with tasks := s.tasks ++ [c],
                      tasks_total := s.tasks_total + 1,
                      submitted := s.submitted + 1,
                      inFlight := s.inFlight.set i cs }
  | finish (s : PoolState) (i : Nat)
      (h : s.inFlight[i]? = some []) :
      Step s { s with inFlight := s.inFlight.eraseIdx i,
                      tasks_total := s.tasks_total - 1,
                      completed := s.completed + 1 }
  | pause (s : PoolState) :
      Step s { s with paused := true }
  | resume (s : PoolState) :
      Step s { s with paused := false }
  | reset_call (s : PoolState) (k hw : Nat) :
      Step s (reset s k hw)

/-- Pool states reachable from a freshly constructed pool with `n`
workers by any interleaving of the transitions. -/
def Reachable (n : Nat) (s : PoolState) : Prop :=
  Relation.ReflTransGen Step (initState n) s

/-- The coordination invariant of the pool: `tasks_total` equals the
number of queued tasks plus the number of in-flight tasks, and the
number of `push_task` calls ever made equals the number of completions
plus `tasks_total`. -/
def PoolInv (s : PoolState) : Prop :=
  s.tasks_total = s.tasks.length + s.inFlight.length ∧
  s.submitted = s.completed + s.tasks_total

theorem poolInv_init (n : Nat) : PoolInv (initState n) := by
  constructor <;> rfl

theorem poolInv_step {s s2 : PoolState} (hs : PoolInv s) (h : Step s s2) :
    PoolInv s2 := by
  obtain ⟨h1, h2⟩ := hs
  cases h with
  | push t =>
    refine ⟨?_, ?_⟩ <;> simp [List.length_append] <;> omega
  | pop t rest hrun hpause hq =>
    rw [hq] at h1
    refine ⟨?_, ?_⟩ <;> simp [List.length_append] at h1 ⊢ <;> omega
  | spawn i c cs h =>
    have hlt : i < s.inFlight.length := (List.getElem?_eq_some.mp h).1
    refine ⟨?_, ?_⟩ <;> simp [List.length_append, List.length_set] <;> omega
  | finish i h =>
    have hlt : i < s.inFlight.length := (List.getElem?_eq_some.mp h).1
    refine ⟨?_, ?_⟩ <;> simp [List.length_eraseIdx, hlt] <;> omega
  | pause => exact ⟨h1, h2⟩
  | resume => exact ⟨h1, h2⟩
  | reset_call k hw =>
    refine ⟨?_, ?_⟩ <;>
      simp [reset, drainInFlight, List.length_append, List.length_flatten,
        sumLengths] <;> omega

theorem poolInv_reachable {n : Nat} {s : PoolState} (h : Reachable n s) :
    PoolInv s := by
  induction h with
  | refl => exact poolInv_init n
  | tail hab hbc ih => exact poolInv_step ih hbc

end threadPool

namespace threadPool

/-- Effect of the workers on the pool while the driver blocks in
`wait_for_tasks`: while not paused, a worker pops the front task, runs
it (issuing all of its `push_task` calls, which append to the queue and
increment `tasks_total`) and then performs `tasks_total--`; while
paused, no worker dequeues anything, so the state is unchanged.  This is
the canonical single-worker FIFO schedule, the executions the benchmark
loop actually exercises; with several workers only the interleaving of
the same pops, pushes and decrements changes. -/
def runQueue (s : PoolState) : PoolState :=
  if s.paused then s
  else
    match hq : s.tasks with
    | [] => s
    | t :: rest =>
      runQueue { s with tasks := rest ++ t.children,
                        tasks_total := s.tasks_total + t.children.length - 1,
                        submitted := s.submitted + t.children.length,
                        completed := s.completed + 1 }
termination_by sizeTList s.tasks
decreasing_by
  simp only [hq, sizeTList_append, sizeTList]
  have := sizeT_def t
  omega

end threadPool

namespace threadPool

theorem runQueue_paused (s : PoolState) (h : s.paused = true) : runQueue s = s := by
  rw [runQueue]; simp [h]

theorem runQueue_nil (s : PoolState) (h : s.tasks = []) : runQueue s = s := by
  rw [runQueue]
  split
  · rfl
  · split
    · rfl
    · rename_i t rest hq
      rw [h] at hq
      cases hq

theorem runQueue_cons (s : PoolState) (t : Task) (rest : List Task)
    (hp : s.paused = false) (h : s.tasks = t :: rest) :
    runQueue s =
      runQueue { s with tasks := rest ++ t.children,
                        tasks_total := s.tasks_total + t.children.length - 1,
                        submitted := s.submitted + t.children.length,
                        completed := s.completed + 1 } := by
  conv => lhs; rw [runQueue]
  rw [hp]
  simp only [Bool.false_eq_true, if_false]
  split
  · rename_i hq
    rw [h] at hq
    cases hq
  · rename_i t2 rest2 hq
    rw [h] at hq
    injection hq with h1 h2
    subst h1; subst h2
    rfl

theorem runQueue_spec (s : PoolState) (hp : s.paused = false)
    (hinv : s.tasks_total = s.tasks.length + s.inFlight.length) :
    (runQueue s).tasks = [] ∧
    (runQueue s).tasks_total = s.inFlight.length ∧
    (runQueue s).thread_count = s.thread_count ∧
    (runQueue s).paused = false ∧
    (runQueue s).inFlight = s.inFlight := by
  induction s using runQueue.induct with
  | case1 s h => simp [h] at hp
  | case2 s h hq =>
    rw [runQueue_nil s hq]
    rw [hq] at hinv
    simp at hinv
    exact ⟨hq, by omega, rfl, hp, rfl⟩
  | case3 s h t rest hq ih =>
    rw [runQueue_cons s t rest hp hq]
    rw [hq] at hinv
    simp [List.length_cons] at hinv
    have := ih hp (by simp [List.length_append]; omega)
    simpa using this

end threadPool

namespace threadPool

/-- C1: for every sequence of `push_task` calls, including `push_task`
calls issued from within running tasks, `wait_for_tasks` called while
the pool is unpaused returns only after every transitively-submitted
task has completed.  Formally: on every reachable pool state whose
`paused` flag is false and on which the exit condition of the
`wait_for_tasks` polling loop holds (which requires `tasks_total == 0`),
the queue is empty, no task is in flight, and the number of completed
tasks equals the number of `push_task` calls ever made — `push_task`
increments `tasks_total` atomically with (observably before) enqueueing,
and a worker decrements only after its task has run to completion, so
`tasks_total == 0` can never be observed mid-chain. -/
theorem wait_for_tasks_only_after_all_completed (n : Nat) (s : PoolState)
    (hreach : Reachable n s) (hpause : s.paused = false)
    (hexit : waitExit s = true) :
    s.tasks = [] ∧ s.inFlight = [] ∧ s.completed = s.submitted := by
  obtain ⟨h1, h2⟩ := poolInv_reachable hreach
  rw [waitExit, hpause] at hexit
  simp [get_tasks_total] at hexit
  have ht : s.tasks.length = 0 ∧ s.inFlight.length = 0 := by omega
  exact ⟨List.length_eq_zero.mp ht.1, List.length_eq_zero.mp ht.2, by omega⟩

/-- Witness for C1: a concrete run of the machine: push one task that,
while running, pushes a second task; run both to completion.  The final
state is reachable, unpaused, satisfies the wait exit condition, and
indeed has an empty queue, nothing in flight, and completions equal to
submissions (2 = 2). -/
theorem wait_for_tasks_only_after_all_completed_witness :
    (⟨false, true, [], 2, 0, [], 2, 2⟩ : PoolState).tasks = [] ∧
    (⟨false, true, [], 2, 0, [], 2, 2⟩ : PoolState).inFlight = [] ∧
    (⟨false, true, [], 2, 0, [], 2, 2⟩ : PoolState).completed =
      (⟨false, true, [], 2, 0, [], 2, 2⟩ : PoolState).submitted := by
  have h1 : Step (initState 2)
      ⟨false, true, [Task.mk [Task.mk []]], 2, 1, [], 1, 0⟩ :=
    Step.push _ (Task.mk [Task.mk []])
  have h2 : Step (⟨false, true, [Task.mk [Task.mk []]], 2, 1, [], 1, 0⟩ : PoolState)
      ⟨false, true, [], 2, 1, [[Task.mk []]], 1, 0⟩ :=
    Step.pop _ (Task.mk [Task.mk []]) [] rfl rfl rfl
  have h3 : Step (⟨false, true, [], 2, 1, [[Task.mk []]], 1, 0⟩ : PoolState)
      ⟨false, true, [Task.mk []], 2, 2, [[]], 2, 0⟩ :=
    Step.spawn _ 0 (Task.mk []) [] rfl
  have h4 : Step (⟨false, true, [Task.mk []], 2, 2, [[]], 2, 0⟩ : PoolState)
      ⟨false, true, [Task.mk []], 2, 1, [], 2, 1⟩ :=
    Step.finish _ 0 rfl
  have h5 : Step (⟨false, true, [Task.mk []], 2, 1, [], 2, 1⟩ : PoolState)
      ⟨false, true, [], 2, 1, [[]], 2, 1⟩ :=
    Step.pop _ (Task.mk []) [] rfl rfl rfl
  have h6 : Step (⟨false, true, [], 2, 1, [[]], 2, 1⟩ : PoolState)
      ⟨false, true, [], 2, 0, [], 2, 2⟩ :=
    Step.finish _ 0 rfl
  have hr : Reachable 2 ⟨false, true, [], 2, 0, [], 2, 2⟩ :=
    Relation.ReflTransGen.tail
      (Relation.ReflTransGen.tail
        (Relation.ReflTransGen.tail
          (Relation.ReflTransGen.tail
            (Relation.ReflTransGen.tail (Relation.ReflTransGen.single h1) h2)
            h3)
          h4)
        h5)
      h6
  exact wait_for_tasks_only_after_all_completed 2 _ hr rfl rfl

/-- C3: on every reachable pool state, the polling loop of
`wait_for_tasks` exits exactly when either the pool is paused and no
task is mid-execution (the running count `get_tasks_running`, i.e.
`tasks_total` minus the queue length, is zero — tasks may well remain in
the queue), or the pool is unpaused and `tasks_total` is zero. -/
theorem wait_for_tasks_exit_iff (n : Nat) (s : PoolState)
    (hreach : Reachable n s) :
    waitExit s = true ↔
      ((s.paused = true ∧ s.inFlight = []) ∨
       (s.paused = false ∧ s.tasks_total = 0)) := by
  obtain ⟨h1, h2⟩ := poolInv_reachable hreach
  unfold waitExit get_tasks_running get_tasks_total get_tasks_queued
  cases hp : s.paused with
  | false => simp [hp]
  | true =>
    simp only [hp, if_true, beq_iff_eq, true_and, false_and, or_false,
      Bool.true_eq_false, if_pos]
    constructor
    · intro hz
      have hlen : s.inFlight.length = 0 := by omega
      exact List.length_eq_zero.mp hlen
    · intro hnil
      have hlen : s.inFlight.length = 0 := by rw [hnil]; rfl
      omega

/-- Witness for C3: the reachable pool state obtained by pushing one
task and then pausing has the task still queued, nothing running, and
the `wait_for_tasks` exit condition already true: the paused wait
returns even though a task remains in the queue. -/
theorem wait_for_tasks_exit_iff_witness :
    waitExit (⟨true, true, [Task.mk []], 4, 1, [], 1, 0⟩ : PoolState) = true ∧
    (⟨true, true, [Task.mk []], 4, 1, [], 1, 0⟩ : PoolState).tasks ≠ [] := by
  have h1 : Step (initState 4) ⟨false, true, [Task.mk []], 4, 1, [], 1, 0⟩ :=
    Step.push _ (Task.mk [])
  have h2 : Step (⟨false, true, [Task.mk []], 4, 1, [], 1, 0⟩ : PoolState)
      ⟨true, true, [Task.mk []], 4, 1, [], 1, 0⟩ :=
    Step.pause _
  have hr : Reachable 4 ⟨true, true, [Task.mk []], 4, 1, [], 1, 0⟩ :=
    Relation.ReflTransGen.tail (Relation.ReflTransGen.single h1) h2
  constructor
  · exact (wait_for_tasks_exit_iff 4 _ hr).mpr (Or.inl ⟨rfl, rfl⟩)
  · exact List.cons_ne_nil _ _

end threadPool

namespace threadPool

/-- C2 counterexample: the claim "for every k > 0, reset(k) followed by
wait_for_tasks leaves the pool with exactly k live worker threads and
zero outstanding tasks" fails as stated when the pool is paused.  From
the reachable paused state holding one queued task, `reset 2` restores
`paused = true`, the workers therefore dequeue nothing while
`wait_for_tasks` polls, the wait exit condition holds at once (no task
is running), and the call returns with the task still outstanding:
`tasks_total = 1 ≠ 0`. -/
theorem reset_paused_keeps_outstanding :
    Reachable 4 ⟨true, true, [Task.mk []], 4, 1, [], 1, 0⟩ ∧
    waitExit (runQueue
      (reset ⟨true, true, [Task.mk []], 4, 1, [], 1, 0⟩ 2 8)) = true ∧
    (runQueue
      (reset ⟨true, true, [Task.mk []], 4, 1, [], 1, 0⟩ 2 8)).thread_count = 2 ∧
    (runQueue
      (reset ⟨true, true, [Task.mk []], 4, 1, [], 1, 0⟩ 2 8)).tasks_total ≠ 0 := by
  have h1 : Step (initState 4) ⟨false, true, [Task.mk []], 4, 1, [], 1, 0⟩ :=
    Step.push _ (Task.mk [])
  have h2 : Step (⟨false, true, [Task.mk []], 4, 1, [], 1, 0⟩ : PoolState)
      ⟨true, true, [Task.mk []], 4, 1, [], 1, 0⟩ :=
    Step.pause _
  have hr : Reachable 4 ⟨true, true, [Task.mk []], 4, 1, [], 1, 0⟩ :=
    Relation.ReflTransGen.tail (Relation.ReflTransGen.single h1) h2
  have hq : runQueue (reset ⟨true, true, [Task.mk []], 4, 1, [], 1, 0⟩ 2 8) =
      reset ⟨true, true, [Task.mk []], 4, 1, [], 1, 0⟩ 2 8 :=
    runQueue_paused _ rfl
  refine ⟨hr, ?_, ?_, ?_⟩ <;> rw [hq]
  · rfl
  · rfl
  · decide

/-- C2 (amended): for every k > 0 and every pool state that satisfies
the counting invariant and is not paused, `reset k` joins all existing
workers and spawns k fresh ones (the live worker set has size k),
restores the previous `paused` flag, and a following `wait_for_tasks`
returns with an empty queue and zero outstanding tasks. -/
theorem reset_then_wait_for_tasks (s : PoolState) (k hw : Nat)
    (hk : 0 < k) (hp : s.paused = false)
    (hinv : s.tasks_total = s.tasks.length + s.inFlight.length) :
    (reset s k hw).paused = s.paused ∧
    (runQueue (reset s k hw)).thread_count = k ∧
    (runQueue (reset s k hw)).tasks = [] ∧
    (runQueue (reset s k hw)).tasks_total = 0 ∧
    waitExit (runQueue (reset s k hw)) = true := by
  have hpf : (reset s k hw).paused = false := hp
  have hflight : (reset s k hw).inFlight = [] := rfl
  have hinv2 : (reset s k hw).tasks_total =
      (reset s k hw).tasks.length + (reset s k hw).inFlight.length := by
    simp [reset, drainInFlight, sumLengths, List.length_append,
      List.length_flatten]
    omega
  obtain ⟨ht, htot, htc, hpq, hif⟩ := runQueue_spec (reset s k hw) hpf hinv2
  have hk2 : (reset s k hw).thread_count = k := by
    simp [reset, drainInFlight]
    omega
  refine ⟨rfl, by rw [htc, hk2], ht, ?_, ?_⟩
  · rw [htot, hflight]
    rfl
  · rw [waitExit, hpq]
    simp [get_tasks_total]
    rw [htot, hflight]
    rfl

/-- Witness for the amended C2: a concrete unpaused pool holding one
queued task that itself pushes a subtask; after `reset 2` and the
drain performed while `wait_for_tasks` polls, the pool has 2 workers,
an empty queue and zero outstanding tasks. -/
theorem reset_then_wait_for_tasks_witness :
    0 < 2 ∧
    ((reset ⟨false, true, [Task.mk [Task.mk []]], 3, 1, [], 1, 0⟩ 2 8).paused = false ∧
     (runQueue (reset ⟨false, true, [Task.mk [Task.mk []]], 3, 1, [], 1, 0⟩ 2 8)).thread_count = 2 ∧
     (runQueue (reset ⟨false, true, [Task.mk [Task.mk []]], 3, 1, [], 1, 0⟩ 2 8)).tasks = [] ∧
     (runQueue (reset ⟨false, true, [Task.mk [Task.mk []]], 3, 1, [], 1, 0⟩ 2 8)).tasks_total = 0 ∧
     waitExit (runQueue (reset ⟨false, true, [Task.mk [Task.mk []]], 3, 1, [], 1, 0⟩ 2 8)) = true) :=
  ⟨by decide,
   reset_then_wait_for_tasks ⟨false, true, [Task.mk [Task.mk []]], 3, 1, [], 1, 0⟩ 2 8
     (by decide) rfl (by decide)⟩

/-- C8: `reset` changes only the worker-thread set: the tasks queued and
not yet dequeued are still at the front of the queue after `reset` (the
queue's only change is gaining, at its back, the tasks pushed by the
in-flight tasks that completed during the internal paused wait), and the
`paused` flag holds its pre-reset value after `reset` returns. -/
theorem reset_preserves_queue_and_paused (s : PoolState) (k hw : Nat) :
    (reset s k hw).paused = s.paused ∧
    s.tasks <+: (reset s k hw).tasks ∧
    (reset s k hw).tasks = s.tasks ++ s.inFlight.flatten :=
  ⟨rfl, ⟨s.inFlight.flatten, rfl⟩, rfl⟩

end threadPool

/-- Unfolding lemma for `runAll` on an empty queue. -/
theorem runAll_nil (c : Counters) : runAll c [] = .ok c := by
  rw [runAll]

/-- Unfolding lemma for `runAll` when the front task throws. -/
theorem runAll_cons_error (c : Counters) (t : FSEntry) (rest : List FSEntry)
    (e : Unit) (h : runTask t = .error e) :
    runAll c (t :: rest) = .error e := by
  rw [runAll]
  split
  · rfl
  · rename_i r hr
    rw [h] at hr
    cases hr

/-- Unfolding lemma for `runAll` when the front task returns normally. -/
theorem runAll_cons_ok (c : Counters) (t : FSEntry) (rest : List FSEntry)
    (r : Counters × List FSEntry) (h : runTask t = .ok r) :
    runAll c (t :: rest) = runAll (c + r.1) (rest ++ r.2) := by
  rw [runAll]
  split
  · rename_i he
    rw [h] at he
    cases he
  · rename_i r2 hr
    rw [h] at hr
    injection hr with hr2
    rw [hr2]

mutual

/-- Replace the contents of every file in a tree by the empty list,
leaving names, accessibility and the directory structure unchanged. -/
def eraseContents : FSEntry → FSEntry
  | .file name _ => .file name []
  | .dir name denied es => .dir name denied (eraseContentsList es)

/-- `eraseContents` mapped over a list of entries. -/
def eraseContentsList : List FSEntry → List FSEntry
  | [] => []
  | e :: es => eraseContents e :: eraseContentsList es

end

theorem eraseContentsList_append (a b : List FSEntry) :
    eraseContentsList (a ++ b) = eraseContentsList a ++ eraseContentsList b := by
  induction a with
  | nil => rfl
  | cons e es ih => simp [eraseContentsList, ih]

theorem visitEntry_erase (e : FSEntry) :
    visitEntry (eraseContents e) =
      ((visitEntry e).1, eraseContentsList (visitEntry e).2) := by
  cases e with
  | file name lines => rfl
  | dir name denied es =>
    cases es with
    | nil => rfl
    | cons e2 es2 => simp [eraseContents, eraseContentsList, visitEntry]

theorem visitEntries_erase (es : List FSEntry) :
    visitEntries (eraseContentsList es) =
      ((visitEntries es).1, eraseContentsList (visitEntries es).2) := by
  induction es with
  | nil => rfl
  | cons e es ih =>
    simp [eraseContentsList, visitEntries, ih, visitEntry_erase,
      eraseContentsList_append]

theorem runTask_erase (t : FSEntry) :
    runTask (eraseContents t) =
      Except.map (fun r => (r.1, eraseContentsList r.2)) (runTask t) := by
  cases t with
  | file name lines => rfl
  | dir name denied es =>
    cases denied with
    | true => rfl
    | false => simp [eraseContents, runTask, visitEntries_erase, Except.map]

theorem runAll_erase (c : Counters) (q : List FSEntry) :
    runAll c (eraseContentsList q) = runAll c q := by
  induction c, q using runAll.induct with
  | case1 c => rfl
  | case2 c t rest e h =>
    rw [runAll_cons_error c t rest e h]
    rw [show eraseContentsList (t :: rest) =
      eraseContents t :: eraseContentsList rest from rfl]
    apply runAll_cons_error
    rw [runTask_erase, h]
    rfl
  | case3 c t rest r h ih =>
    rw [runAll_cons_ok c t rest r h]
    rw [show eraseContentsList (t :: rest) =
      eraseContents t :: eraseContentsList rest from rfl]
    rw [runAll_cons_ok _ _ _ (r.1, eraseContentsList r.2)
      (by rw [runTask_erase, h]; rfl)]
    rw [← eraseContentsList_append]
    exact ih


/-- Scalar multiple of a counter record (`m` accumulated identical
traversal runs). -/
def Counters.nsmul (m : Nat) (c : Counters) : Counters :=
  ⟨m * c.howManyDirectories, m * c.howManyFiles, m * c.howManyWords,
   m * c.howManyLetters, m * c.isEmptyLine, m * c.nonEmptyLine⟩

/-- Benchmark loop of `main` (main.cpp 309-319): once per thread count
from 1 up to `m`, reset the pool, push the root traversal task and wait
for it to drain.  The global counters are never zeroed between
iterations, so each successful run adds one full traversal's counts on
top of the accumulated ones. -/
def benchLoop (root : FSEntry) : Nat → Except Unit Counters
  | 0 => .ok Counters.zero
  | m + 1 =>
    match benchLoop root m with
    | .error e => .error e
    | .ok c =>
      match runTraversal root with
      | .error e => .error e
      | .ok d => .ok (c + d)

/-- `summary` (main.cpp 273-289): every aggregate counter is divided by
`maxThreads` (C++ truncating integer division) before being printed. -/
def summary (c : Counters) (maxThreads : Nat) : Counters :=
  ⟨c.howManyDirectories / maxThreads, c.howManyFiles / maxThreads,
   c.howManyWords / maxThreads, c.howManyLetters / maxThreads,
   c.isEmptyLine / maxThreads, c.nonEmptyLine / maxThreads⟩

theorem benchLoop_accumulates (root : FSEntry) (c : Counters)
    (h : runTraversal root = .ok c) (m : Nat) :
    benchLoop root m = .ok (Counters.nsmul m c) := by
  induction m with
  | zero =>
    cases c
    simp [benchLoop, Counters.nsmul, Counters.zero]
  | succ m ih =>
    rw [benchLoop, ih, h]
    cases c
    simp [Counters.nsmul, Counters.add_def, Nat.succ_mul]

/-- C9: after the benchmark loop has run the traversal once per thread
count from 1 to `maxThreads` without zeroing the shared counters between
runs, the accumulated counters are exactly `maxThreads` times the
per-run counts, and `summary` divides every aggregate counter by
`maxThreads` (integer division, exact here) before printing, so each
printed value is the accumulated total divided by the number of
benchmark iterations — i.e. the per-run count. -/
theorem summary_divides_accumulated (root : FSEntry) (m : Nat) (c : Counters)
    (hm : 0 < m) (h : runTraversal root = .ok c) :
    benchLoop root m = .ok (Counters.nsmul m c) ∧
    summary (Counters.nsmul m c) m = c := by
  refine ⟨benchLoop_accumulates root c h m, ?_⟩
  cases c
  simp [summary, Counters.nsmul, Nat.mul_div_cancel_left _ hm]

/-- Witness for C9 at the scenario tree with `maxThreads = 2`. -/
theorem summary_divides_accumulated_witness :
    0 < 2 ∧
    runTraversal (.dir "root" false
      [.dir "sub" false [.file "a.txt" ["hello world", ""]]]) =
      .ok ⟨1, 1, 1, 5, 0, 1⟩ ∧
    (benchLoop (.dir "root" false
        [.dir "sub" false [.file "a.txt" ["hello world", ""]]]) 2 =
      .ok (Counters.nsmul 2 ⟨1, 1, 1, 5, 0, 1⟩) ∧
     summary (Counters.nsmul 2 ⟨1, 1, 1, 5, 0, 1⟩) 2 = ⟨1, 1, 1, 5, 0, 1⟩) := by
  have h : runTraversal (.dir "root" false
      [.dir "sub" false [.file "a.txt" ["hello world", ""]]]) =
      .ok ⟨1, 1, 1, 5, 0, 1⟩ := by
    simp [runTraversal, runAll, runTask, visitEntries, visitEntry,
      Counters.zero, countSpaces, Counters.add_def]
    decide
  exact ⟨by decide, h,
    summary_divides_accumulated _ 2 ⟨1, 1, 1, 5, 0, 1⟩ (by decide) h⟩

/-- Progress of one worker thread through the shared-counter increment
`howManyFiles++` (main.cpp line 256).  The global is a plain
`unsigned int`, not `std::atomic`, so the increment is a load of the
current value followed, possibly later, by a store of that value plus
one. -/
inductive IncPhase : Type where
  | notStarted : IncPhase
  | loaded (v : Nat) : IncPhase
  | done : IncPhase
deriving Repr, DecidableEq

/-- Shared state of two workers whose current directory entries are both
regular files, so both execute `howManyFiles++` concurrently. -/
structure IncState where
  howManyFiles : Nat
  w0 : IncPhase
  w1 : IncPhase
deriving Repr, DecidableEq

/-- The next machine operation of an in-progress `howManyFiles++`. -/
def incOp (p : IncPhase) (c : Nat) : IncPhase × Nat :=
  match p with
  | .notStarted => (.loaded c, c)
  | .loaded v => (.done, v + 1)
  | .done => (.done, c)

/-- Run a scheduler choice sequence (`false` steps worker 0, `true`
steps worker 1) from the state where both increments are about to
start on a zeroed counter. -/
def runIncs (sched : List Bool) : IncState :=
  sched.foldl
    (fun st b =>
      if b then
        let r := incOp st.w1 st.howManyFiles
        ⟨r.2, st.w0, r.1⟩
      else
        let r := incOp st.w0 st.howManyFiles
        ⟨r.2, r.1, st.w1⟩)
    ⟨0, .notStarted, .notStarted⟩

/-- C7: the aggregate counters are not updated atomically, so the final
counter value depends on the interleaving: with the two increments
serialized (as with a single worker thread) the counter ends at 2, while
the interleaving load-0, load-1, store-0, store-1 — admissible as soon
as two workers run concurrently — completes both `howManyFiles++`
executions yet leaves the counter at 1.  Identical counters regardless
of thread count are therefore not guaranteed by the code. -/
theorem howManyFiles_increment_race :
    (runIncs [false, false, true, true]).howManyFiles = 2 ∧
    (runIncs [false, false, true, true]).w0 = IncPhase.done ∧
    (runIncs [false, false, true, true]).w1 = IncPhase.done ∧
    (runIncs [false, true, false, true]).howManyFiles = 1 ∧
    (runIncs [false, true, false, true]).w0 = IncPhase.done ∧
    (runIncs [false, true, false, true]).w1 = IncPhase.done := by
  decide

/-- The body of one iteration of `threadPool::worker` (main.cpp
172-187) after a task has been popped: `task(); tasks_total--;`.  The
decrement is reached only when `task()` returns normally; an exception
thrown by `task()` propagates out of `worker` — there is no try/catch
anywhere in main.cpp — so the decrement is skipped (and the C++ runtime
calls `std::terminate` for an exception escaping a thread function). -/
def workerRunOnce (tasks_total : Nat) (t : FSEntry) : Except Unit Nat :=
  match runTask t with
  | .ok _ => .ok (tasks_total - 1)
  | .error e => .error e

/-- C4: a traversal error is NOT caught at the visit boundary.  On a
root whose entries are a non-empty permission-denied subdirectory and an
accessible sibling subtree, the child task for the denied directory
throws (`directory_iterator` constructor), `listFilesWithThreads` has no
handler, the worker's `tasks_total--` is never executed
(`workerRunOnce` propagates the error), and the drain aborts instead of
completing the queued sibling subtree. -/
theorem traversal_error_not_caught :
    runTraversal (.dir "root" false
      [.dir "locked" true [.file "secret" ["top secret"]],
       .dir "ok" false [.file "a" []]]) = .error () ∧
    workerRunOnce 2 (.dir "locked" true [.file "secret" ["top secret"]]) =
      .error () := by
  constructor
  · simp [runTraversal, runAll, runTask, visitEntries, visitEntry,
      Counters.zero, Counters.add_def]
  · rfl

/-- C5: evaluating the program on the specification scenario — a root
directory with one subdirectory `sub` containing one file `a.txt` whose
contents are the two lines "hello world" and "" — yields 1 directory
(the root itself is never counted), 1 file, 1 non-empty "line" (the
counter actually counts non-empty directories), 0 empty lines, 1 word
and 5 letters (both counted from the file NAME `a.txt`; the file is
never opened and its contents contribute nothing). -/
theorem scenario_counters_from_names :
    runTraversal (.dir "root" false
      [.dir "sub" false [.file "a.txt" ["hello world", ""]]]) =
      .ok ⟨1, 1, 1, 5, 0, 1⟩ := by
  simp [runTraversal, runAll, runTask, visitEntries, visitEntry,
    Counters.zero, countSpaces, Counters.add_def]
  decide

/-- C6 counterexample: for an empty root directory every counter ends at
zero; in particular the directory counter is 0, not 1 — the root itself
is never counted because `listFilesWithThreads` only iterates over the
entries of its argument directory. -/
theorem empty_root_not_counted :
    runTraversal (.dir "r" false []) = .ok Counters.zero ∧
    Counters.zero.howManyDirectories ≠ 1 := by
  constructor
  · simp [runTraversal, runAll, runTask, visitEntries, Counters.zero,
      Counters.add_def]
  · decide

/-- C6 (amended): after draining a traversal whose root is an empty
directory, the directory counter equals 0 (the root is not counted),
the file counter equals 0, and all line, word and letter counters equal
0. -/
theorem runTraversal_empty_root (name : String) :
    runTraversal (.dir name false []) = .ok Counters.zero := by
  simp [runTraversal, runAll, runTask, visitEntries, Counters.zero,
    Counters.add_def]

/-- C10: for a directory entry that is an empty directory,
`listFilesWithThreads` pushes no child task and control falls through to
the file branch, so besides `howManyDirectories` it also increments
`howManyFiles`, adds the length of the entry's name to `howManyLetters`,
and increments `howManyWords` once plus once per space in the name; the
empty-line and non-empty-line counters are incremented once per
directory entry according to whether that directory is empty (a
non-empty directory pushes a task for itself and nothing more); and
file contents are never opened or read — the whole traversal is
unchanged when every file's contents are erased. -/
theorem empty_directory_falls_through :
    (∀ name denied, visitEntry (.dir name denied []) =
        (⟨1, 1, 1 + countSpaces name, name.length, 1, 0⟩, [])) ∧
    (∀ name denied e es, visitEntry (.dir name denied (e :: es)) =
        (⟨1, 0, 0, 0, 0, 1⟩, [.dir name denied (e :: es)])) ∧
    (∀ root, runTraversal (eraseContents root) = runTraversal root) := by
  refine ⟨fun name denied => rfl, fun name denied e es => rfl, fun root => ?_⟩
  show runAll Counters.zero [eraseContents root] = runAll Counters.zero [root]
  have h : [eraseContents root] = eraseContentsList [root] := rfl
  rw [h]
  exact runAll_erase Counters.zero [root]
